import Mathlib

/- A shallow embedding of the OCI indexer (src/oci/indexer.go) of the
package-registry repository, together with theorems settling the
specification's claims about it.  Go strings are modelled as lists of
characters; the two external oras-go calls (remote.NewRepository at Init
time and registry.Tags at Get time) are modelled as parameters, following
the specification's description of the Tag Enumerator and of reference
construction. -/

namespace Oci

/-- Go strings are modelled as lists of characters. -/
abbrev Str := List Char

/-- Conversion from Lean string literals to the character-list model. -/
def str (s : String) : Str := s.toList

/-- Configuration options of the indexer (struct IndexerOptions). -/
structure IndexerOptions where
  registry : Str
  repository : Str
  username : Str
  password : Str
  insecure : Bool
deriving DecidableEq

/-- A package descriptor: the fields of packages.Package that the indexer
sets (the BasePackage fields together with BasePath). -/
structure Package where
  name : Str
  version : Str
  title : Str
  description : Str
  type : Str
  categories : List Str
  basePath : Str
deriving DecidableEq

/-- The client attached to the repository handle: nil, an auth.Client, or an
http.Client whose transport may have InsecureSkipVerify set. -/
inductive ClientConfig where
  | noClient : ClientConfig
  | authClient : ClientConfig
  | httpClient (insecureSkipVerify : Bool) : ClientConfig
deriving DecidableEq

/-- The repository handle built by Init (remote.Repository: its reference
string and its Client field). -/
structure RepoHandle where
  ref : Str
  client : ClientConfig
deriving DecidableEq

/-- The indexer: its options and its repo field (none before Init). -/
structure Indexer where
  opts : IndexerOptions
  repo : Option RepoHandle
deriving DecidableEq

/-- NewIndexer creates an indexer with the given options and no repo handle. -/
def NewIndexer (opts : IndexerOptions) : Indexer :=
  { opts := opts, repo := none }

/-- Go strings.Split with a single-character separator: splits around every
occurrence of sep.  The result is never empty, and splitting the empty
string yields a singleton holding the empty string. -/
def goSplit (sep : Char) : Str → List Str
  | [] => [[]]
  | c :: rest =>
    match goSplit sep rest with
    | [] => [[]]
    | s :: ss => if c == sep then [] :: s :: ss else (c :: s) :: ss

/-- Modelled from the spec: remote.NewRepository (oras-go, external to src)
may fail to construct the combined reference; whether a reference is
constructible is modelled as an oracle predicate supplied to Init
(spec section 4.1, ConnectionError). -/
abbrev Constructible := Str → Bool

/-- Modelled from the spec: registry.Tags (oras-go, external to src) is the
Tag Enumerator; its outcome at query time — an enumeration error or a list
of tags — is supplied to Get as a parameter (spec section 4.2). -/
abbrev TagsOutcome := Except Str (List Str)

/-- The combined registry/repository reference string built by Init. -/
def repoRef (opts : IndexerOptions) : Str :=
  opts.registry ++ str "/" ++ opts.repository

/-- Init: validates the configuration, builds the repository reference and
handle, attaches an auth client when both credentials are present, and, when
the insecure flag is set, installs a fresh http client if none is present
and sets InsecureSkipVerify on the handle's client when (and only when) that
client is an http.Client — the type assertion in the source fails silently
on an auth.Client. -/
def Init (constructible : Constructible) (opts : IndexerOptions) :
    Except Str RepoHandle :=
  if opts.registry = [] then
    Except.error (str "OCI registry URL is required")
  else if opts.repository = [] then
    Except.error (str "OCI repository name is required")
  else if constructible (repoRef opts) = false then
    Except.error (str "failed to create repository reference " ++ repoRef opts)
  else
    let client0 :=
      if opts.username ≠ [] ∧ opts.password ≠ [] then ClientConfig.authClient
      else ClientConfig.noClient
    let client1 :=
      if opts.insecure then
        let c :=
          if client0 = ClientConfig.noClient then ClientConfig.httpClient false
          else client0
        match c with
        | ClientConfig.httpClient _ => ClientConfig.httpClient true
        | other => other
      else client0
    Except.ok { ref := repoRef opts, client := client1 }

/-- Init at the level of the whole indexer: on success the repo field is
set; on failure the indexer is unchanged and the error is reported. -/
def InitStep (constructible : Constructible) (i : Indexer) :
    Indexer × Option Str :=
  match Init constructible i.opts with
  | Except.error e => (i, some e)
  | Except.ok repo => ({ i with repo := some repo }, none)

/-- Close: the source logs and returns nil, changing nothing. -/
def CloseStep (i : Indexer) : Indexer × Option Str := (i, none)

/-- getMockPackage: the deterministic fallback singleton. -/
def getMockPackage (opts : IndexerOptions) : List Package :=
  [ { name := str "oci-mock-package",
      version := str "1.0.0",
      title := str "Mock OCI Package",
      description := str "Mock package from OCI registry " ++ opts.registry
        ++ str "/" ++ opts.repository,
      type := str "integration",
      categories := [str "web"],
      basePath := str "oci://" ++ opts.registry ++ str "/" ++ opts.repository
        ++ str ":latest" } ]

/-- getPackageFromTag: synthesizes a package descriptor from one tag.  The
name is element 0 of the colon split (the whole tag when that is empty), the
version is element 1 of the colon split when the split has more than one
element and "1.0.0" otherwise.  Always succeeds with a non-nil package. -/
def getPackageFromTag (opts : IndexerOptions) (tag : Str) :
    Except Str (Option Package) :=
  let parts := goSplit ':' tag
  let packageName0 := parts.headD []
  let packageName := if packageName0 = [] then tag else packageName0
  let packageVersion :=
    if parts.length > 1 then parts.getD 1 [] else str "1.0.0"
  let title := str "Package " ++ packageName
  Except.ok (some
    { name := packageName,
      version := packageVersion,
      title := title,
      description := str "Package " ++ packageName
        ++ str " from OCI registry " ++ opts.registry ++ str "/"
        ++ opts.repository,
      type := str "integration",
      categories := [str "observability"],
      basePath := str "oci://" ++ opts.registry ++ str "/" ++ opts.repository
        ++ str ":" ++ tag })

/-- The tag loop of Get: a failed or nil synthesis result is skipped, every
synthesized package is appended in enumeration order. -/
def processTags (opts : IndexerOptions) : List Str → List Package
  | [] => []
  | tag :: rest =>
    match getPackageFromTag opts tag with
    | Except.error _ => processTags opts rest
    | Except.ok none => processTags opts rest
    | Except.ok (some pkg) => pkg :: processTags opts rest

/-- Get: fails when the indexer is not initialized; on an enumeration error
returns the fallback; otherwise synthesizes one package per tag and returns
the fallback when that aggregate is empty.  The options argument (the filter)
is accepted and never read, which the polymorphic type records. -/
def Get {α : Type} (i : Indexer) (_getOpts : α) (tagsOutcome : TagsOutcome) :
    Except Str (List Package) :=
  match i.repo with
  | none => Except.error (str "OCI indexer not initialized")
  | some _ =>
    match tagsOutcome with
    | Except.error _ => Except.ok (getMockPackage i.opts)
    | Except.ok tags =>
      let allPackages := processTags i.opts tags
      if allPackages.isEmpty then Except.ok (getMockPackage i.opts)
      else Except.ok allPackages

/-- The longest colon-free prefix of a tag: the substring before the first
colon, or the whole tag when it has no colon. -/
def beforeFirstColon (t : Str) : Str := t.takeWhile (fun c => c != ':')

/-- The substring strictly after the first colon, when the tag has one. -/
def afterFirstColon (t : Str) : Option Str :=
  match t.dropWhile (fun c => c != ':') with
  | [] => none
  | _ :: rest => some rest

/-- The substring strictly after the first colon and before the next colon
(the second colon-separated field), when the tag has a colon at all. -/
def secondField (t : Str) : Option Str :=
  (afterFirstColon t).map (fun r => r.takeWhile (fun c => c != ':'))

/-- The name the synthesizer assigns to a tag: the substring before the
first colon, or the whole tag when that substring is empty. -/
def nameFromTag (t : Str) : Str :=
  if beforeFirstColon t = [] then t else beforeFirstColon t

/-- The version the synthesizer assigns to a tag: the second colon-separated
field when the tag has a colon, and "1.0.0" otherwise. -/
def versionFromTag (t : Str) : Str :=
  match secondField t with
  | none => str "1.0.0"
  | some v => v

/-- The package descriptor the synthesizer produces for a tag, written with
the spec-level name and version mappings; proved equal to the result of
getPackageFromTag below. -/
def synthPackage (opts : IndexerOptions) (t : Str) : Package :=
  { name := nameFromTag t,
    version := versionFromTag t,
    title := str "Package " ++ nameFromTag t,
    description := str "Package " ++ nameFromTag t
      ++ str " from OCI registry " ++ opts.registry ++ str "/"
      ++ opts.repository,
    type := str "integration",
    categories := [str "observability"],
    basePath := str "oci://" ++ opts.registry ++ str "/" ++ opts.repository
      ++ str ":" ++ t }

/-- The client configuration Init ends up attaching. -/
def clientFor (opts : IndexerOptions) : ClientConfig :=
  if opts.username ≠ [] ∧ opts.password ≠ [] then ClientConfig.authClient
  else if opts.insecure then ClientConfig.httpClient true
  else ClientConfig.noClient

/-- Whether the handle's client is the authentication client. -/
def hasAuthClient : ClientConfig → Bool
  | ClientConfig.authClient => true
  | _ => false

/-- Whether certificate verification is disabled on the handle's client. -/
def clientInsecure : ClientConfig → Bool
  | ClientConfig.httpClient b => b
  | _ => false

/-- Whether a query result is a success. -/
def isOk {ε σ : Type} : Except ε σ → Bool
  | Except.ok _ => true
  | Except.error _ => false

/-- Scenario A options: registry.example.com and packages, no credentials. -/
def optsA : IndexerOptions :=
  { registry := str "registry.example.com", repository := str "packages",
    username := [], password := [], insecure := false }

/-- A repository handle matching optsA. -/
def handleA : RepoHandle :=
  { ref := str "registry.example.com/packages",
    client := ClientConfig.noClient }

/-- Small options used by concrete checks. -/
def optsB : IndexerOptions :=
  { registry := str "r", repository := str "p",
    username := [], password := [], insecure := false }

/-- A repository handle matching optsB. -/
def handleB : RepoHandle :=
  { ref := str "r/p", client := ClientConfig.noClient }

/-- An indexer in the initialized state over optsB. -/
def iReadyB : Indexer := { opts := optsB, repo := some handleB }

/-- Options with both credentials and the insecure flag set. -/
def optsAuthInsecure : IndexerOptions :=
  { registry := str "r", repository := str "p",
    username := str "u", password := str "w", insecure := true }

/-- Options with a username only. -/
def optsUserOnly : IndexerOptions :=
  { registry := str "r", repository := str "p",
    username := str "u", password := [], insecure := false }

/-- A constructibility oracle that accepts every reference. -/
def alwaysConstructible : Constructible := fun _ => true

theorem goSplit_ne_nil (sep : Char) (s : Str) : goSplit sep s ≠ [] := by
  cases s with
  | nil => simp [goSplit]
  | cons c cs =>
    simp only [goSplit]
    cases goSplit sep cs with
    | nil => simp
    | cons a as =>
      by_cases h : c == sep
      · simp [h]
      · simp [h]

theorem goSplit_cons_eq (sep : Char) (s : Str) :
    goSplit sep s =
      s.takeWhile (fun c => c != sep) ::
        (match s.dropWhile (fun c => c != sep) with
         | [] => []
         | _ :: rest => goSplit sep rest) := by
  induction s with
  | nil => rfl
  | cons c cs ih =>
    cases hg : goSplit sep cs with
    | nil => exact absurd hg (goSplit_ne_nil sep cs)
    | cons a as =>
      rw [hg] at ih
      by_cases h : c = sep
      · subst h
        simp only [goSplit, hg, beq_self_eq_true, if_true,
          List.takeWhile_cons, List.dropWhile_cons, bne_self_eq_false,
          Bool.false_eq_true, if_false]
      · have hb : (c == sep) = false := by simp [h]
        have hbne : (c != sep) = true := by simp [bne, hb]
        simp only [goSplit, hg, hb, Bool.false_eq_true, if_false,
          List.takeWhile_cons, List.dropWhile_cons, hbne, if_true]
        injection ih with h1 h2
        rw [h1, h2]

theorem goSplit_headD (sep : Char) (s : Str) :
    (goSplit sep s).headD [] = s.takeWhile (fun c => c != sep) := by
  rw [goSplit_cons_eq]
  rfl

theorem goSplit_length_gt_one (sep : Char) (s : Str) :
    1 < (goSplit sep s).length ↔ s.dropWhile (fun c => c != sep) ≠ [] := by
  rw [goSplit_cons_eq]
  cases hd : s.dropWhile (fun c => c != sep) with
  | nil => simp
  | cons a rest =>
    have hne := goSplit_ne_nil sep rest
    have hlen : 0 < (goSplit sep rest).length := List.length_pos.mpr hne
    simp only [List.length_cons]
    constructor
    · intro _
      simp
    · intro _
      omega

theorem goSplit_getD_one (sep : Char) (s : Str) (a : Char) (rest : Str)
    (hd : s.dropWhile (fun c => c != sep) = a :: rest) :
    (goSplit sep s).getD 1 [] = rest.takeWhile (fun c => c != sep) := by
  have he : goSplit sep s
      = s.takeWhile (fun c => c != sep) :: goSplit sep rest := by
    rw [goSplit_cons_eq, hd]
  rw [he]
  cases hg : goSplit sep rest with
  | nil => exact absurd hg (goSplit_ne_nil sep rest)
  | cons b bs =>
    have hh := goSplit_headD sep rest
    rw [hg] at hh
    simp only [List.headD] at hh
    simp [hg, hh]

theorem nameFromTag_eq_nil_iff (t : Str) : nameFromTag t = [] ↔ t = [] := by
  unfold nameFromTag
  by_cases h : beforeFirstColon t = []
  · rw [if_pos h]
  · rw [if_neg h]
    constructor
    · intro hc
      exact absurd hc h
    · intro ht
      subst ht
      exact absurd rfl h

theorem versionFromTag_eq_nil_iff (t : Str) :
    versionFromTag t = [] ↔ secondField t = some [] := by
  unfold versionFromTag
  cases hs : secondField t with
  | none =>
    have hv : str "1.0.0" ≠ [] := by decide
    simp [hv]
  | some v => simp

theorem getPackageFromTag_eq (opts : IndexerOptions) (t : Str) :
    getPackageFromTag opts t = Except.ok (some (synthPackage opts t)) := by
  have hname :
      (if (goSplit ':' t).headD [] = [] then t else (goSplit ':' t).headD [])
        = nameFromTag t := by
    rw [goSplit_headD]
    rfl
  have hver :
      (if 1 < (goSplit ':' t).length then (goSplit ':' t).getD 1 []
        else str "1.0.0") = versionFromTag t := by
    by_cases hd : t.dropWhile (fun c => c != ':') = []
    · have hnot : ¬ 1 < (goSplit ':' t).length := by
        rw [goSplit_length_gt_one]
        simp [hd]
      rw [if_neg hnot]
      simp [versionFromTag, secondField, afterFirstColon, hd]
    · obtain ⟨a, rest, ha⟩ : ∃ a rest,
          t.dropWhile (fun c => c != ':') = a :: rest := by
        cases hc : t.dropWhile (fun c => c != ':') with
        | nil => exact absurd hc hd
        | cons x xs => exact ⟨x, xs, rfl⟩
      have hgt : 1 < (goSplit ':' t).length := by
        rw [goSplit_length_gt_one, ha]
        simp
      rw [if_pos hgt, goSplit_getD_one ':' t a rest ha]
      simp [versionFromTag, secondField, afterFirstColon, ha]
  simp only [getPackageFromTag, synthPackage, gt_iff_lt, hname, hver]

theorem processTags_eq_map (opts : IndexerOptions) (tags : List Str) :
    processTags opts tags = tags.map (synthPackage opts) := by
  induction tags with
  | nil => rfl
  | cons t ts ih => simp [processTags, getPackageFromTag_eq, ih]

theorem Init_ok (opts : IndexerOptions) (c : Constructible)
    (h1 : opts.registry ≠ []) (h2 : opts.repository ≠ [])
    (h3 : c (repoRef opts) = true) :
    Init c opts = Except.ok { ref := repoRef opts, client := clientFor opts } := by
  by_cases hcred : opts.username ≠ [] ∧ opts.password ≠ []
  · by_cases hins : opts.insecure
    · simp [Init, clientFor, h1, h2, h3, hcred, hins]
    · simp [Init, clientFor, h1, h2, h3, hcred, hins]
  · by_cases hins : opts.insecure
    · simp [Init, clientFor, h1, h2, h3, hcred, hins]
    · simp [Init, clientFor, h1, h2, h3, hcred, hins]

theorem Init_ok_inv (opts : IndexerOptions) (c : Constructible)
    (h : RepoHandle) (hok : Init c opts = Except.ok h) :
    opts.registry ≠ [] ∧ opts.repository ≠ [] ∧ c (repoRef opts) = true ∧
      h = { ref := repoRef opts, client := clientFor opts } := by
  by_cases h1 : opts.registry = []
  · simp [Init, h1] at hok
  · by_cases h2 : opts.repository = []
    · simp [Init, h1, h2] at hok
    · by_cases h3 : c (repoRef opts) = true
      · refine ⟨h1, h2, h3, ?_⟩
        rw [Init_ok opts c h1 h2 h3] at hok
        injection hok with h4
        exact h4.symm
      · have hfalse : c (repoRef opts) = false := by
          cases hc : c (repoRef opts) with
          | false => rfl
          | true => exact absurd hc h3
        simp [Init, h1, h2, hfalse] at hok

theorem Get_some (opts : IndexerOptions) (h : RepoHandle) {α : Type}
    (f : α) (tr : TagsOutcome) :
    Get { opts := opts, repo := some h } f tr =
      match tr with
      | Except.error _ => Except.ok (getMockPackage opts)
      | Except.ok tags =>
        if tags = [] then Except.ok (getMockPackage opts)
        else Except.ok (tags.map (synthPackage opts)) := by
  cases tr with
  | error e => rfl
  | ok tags =>
    cases tags with
    | nil => rfl
    | cons t ts => simp [Get, processTags_eq_map]

/-- Claim C1, counterexample: for the tag "a:b:c" the synthesizer's version
is "b", the split element between the first and second colon, while the
claim requires "b:c", the whole substring after the first colon. -/
theorem claim_C1_counterexample :
    getPackageFromTag optsB (str "a:b:c")
        = Except.ok (some (synthPackage optsB (str "a:b:c")))
      ∧ (synthPackage optsB (str "a:b:c")).version = str "b"
      ∧ afterFirstColon (str "a:b:c") = some (str "b:c")
      ∧ str "b" ≠ str "b:c" := by
  refine ⟨getPackageFromTag_eq optsB (str "a:b:c"), rfl, rfl, ?_⟩
  decide

/-- Claim C1, amended: per-tag synthesis always succeeds; the name is the
substring before the first colon (or the whole tag when that substring is
empty, in particular when there is no colon), the version is the substring
after the first colon and before the second colon when the tag has a colon
and "1.0.0" otherwise, the title is "Package name" and the base path is
oci://registry/repository:tag; in scenario A the query returns exactly the
two stated descriptors. -/
theorem claim_C1_amended :
    (∀ (opts : IndexerOptions) (t : Str),
      getPackageFromTag opts t = Except.ok (some (synthPackage opts t))
        ∧ (synthPackage opts t).name
            = (if beforeFirstColon t = [] then t else beforeFirstColon t)
        ∧ (synthPackage opts t).version
            = (match afterFirstColon t with
               | none => str "1.0.0"
               | some r => r.takeWhile (fun c => c != ':'))
        ∧ (synthPackage opts t).title
            = str "Package " ++ (synthPackage opts t).name
        ∧ (synthPackage opts t).basePath
            = str "oci://" ++ opts.registry ++ str "/" ++ opts.repository
              ++ str ":" ++ t)
    ∧ (∀ (α : Type) (f : α),
        Get { opts := optsA, repo := some handleA } f
            (Except.ok [str "nginx:1.2.0", str "redis"])
          = Except.ok [synthPackage optsA (str "nginx:1.2.0"),
              synthPackage optsA (str "redis")]
        ∧ (synthPackage optsA (str "nginx:1.2.0")).name = str "nginx"
        ∧ (synthPackage optsA (str "nginx:1.2.0")).version = str "1.2.0"
        ∧ (synthPackage optsA (str "nginx:1.2.0")).basePath
            = str "oci://registry.example.com/packages:nginx:1.2.0"
        ∧ (synthPackage optsA (str "redis")).name = str "redis"
        ∧ (synthPackage optsA (str "redis")).version = str "1.0.0"
        ∧ (synthPackage optsA (str "redis")).basePath
            = str "oci://registry.example.com/packages:redis") := by
  constructor
  · intro opts t
    refine ⟨getPackageFromTag_eq opts t, rfl, ?_, rfl, rfl⟩
    show versionFromTag t = _
    cases h : afterFirstColon t with
    | none => simp [versionFromTag, secondField, h]
    | some r => simp [versionFromTag, secondField, h]
  · intro α f
    refine ⟨rfl, ?_, ?_, ?_, ?_, ?_, ?_⟩ <;> decide

/-- Claim C2: with an initialized indexer, any enumeration error makes Get
return success with exactly the fallback descriptor (name oci-mock-package,
version 1.0.0, type integration, base path oci://registry/repository:latest)
and the error is not propagated. -/
theorem claim_C2 (opts : IndexerOptions) (h : RepoHandle) (α : Type)
    (f : α) (e : Str) :
    Get { opts := opts, repo := some h } f (Except.error e)
        = Except.ok (getMockPackage opts)
      ∧ ∃ p, getMockPackage opts = [p]
          ∧ p.name = str "oci-mock-package"
          ∧ p.version = str "1.0.0"
          ∧ p.type = str "integration"
          ∧ p.basePath = str "oci://" ++ opts.registry ++ str "/"
              ++ opts.repository ++ str ":latest" :=
  ⟨rfl, ⟨_, rfl, rfl, rfl, rfl, rfl⟩⟩

/-- Claim C3: with an initialized indexer, Get succeeds with a non-empty
descriptor list for every enumeration outcome — failure, the empty tag
list, or a non-empty tag list; the fallback is a singleton, and it is what
Get returns both when enumeration fails and when enumeration succeeds but
yields zero usable tags, so a caller never sees an empty sequence or an
error. -/
theorem claim_C3 (opts : IndexerOptions) (h : RepoHandle) (α : Type)
    (f : α) (tr : TagsOutcome) :
    (∃ l, Get { opts := opts, repo := some h } f tr = Except.ok l ∧ l ≠ [])
      ∧ (getMockPackage opts).length = 1
      ∧ (∀ e, tr = Except.error e →
          Get { opts := opts, repo := some h } f tr
            = Except.ok (getMockPackage opts))
      ∧ (∀ tags, tr = Except.ok tags → processTags opts tags = [] →
          Get { opts := opts, repo := some h } f tr
            = Except.ok (getMockPackage opts)) := by
  refine ⟨?_, by simp [getMockPackage], ?_, ?_⟩
  · rw [Get_some]
    cases tr with
    | error e => exact ⟨getMockPackage opts, rfl, by simp [getMockPackage]⟩
    | ok tags =>
      cases tags with
      | nil => exact ⟨getMockPackage opts, by simp, by simp [getMockPackage]⟩
      | cons t ts =>
        exact ⟨synthPackage opts t :: ts.map (synthPackage opts),
          by simp, by simp⟩
  · intro e he
    subst he
    rfl
  · intro tags htr hempty
    subst htr
    simp [Get, hempty]

/-- Claim C3, witness: the fallback singleton is returned concretely both
for an enumeration error and for an empty tag list. -/
theorem claim_C3_witness :
    Get { opts := optsB, repo := some handleB } () (Except.ok ([] : List Str))
        = Except.ok (getMockPackage optsB)
      ∧ Get { opts := optsB, repo := some handleB } ()
            (Except.error (str "boom"))
          = Except.ok (getMockPackage optsB) :=
  ⟨(claim_C3 optsB handleB Unit ()
      (Except.ok ([] : List Str))).2.2.2 [] rfl rfl,
   (claim_C3 optsB handleB Unit ()
      (Except.error (str "boom"))).2.2.1 (str "boom") rfl⟩

/-- Claim C9: Get never reads its options argument, so the result is the
same for any two filter values, of any types. -/
theorem claim_C9 (α β : Type) (f1 : α) (f2 : β) (i : Indexer)
    (tr : TagsOutcome) : Get i f1 tr = Get i f2 tr := rfl

/-- Claim C4, counterexample: Close does not invalidate the indexer; after
Close on an initialized indexer, Get still succeeds instead of failing with
a not-initialized error as the claimed state machine requires. -/
theorem claim_C4_counterexample :
    (CloseStep iReadyB).2 = none
      ∧ Get (CloseStep iReadyB).1 () (Except.ok [str "x"])
          = Except.ok [synthPackage optsB (str "x")]
      ∧ isOk (Get (CloseStep iReadyB).1 () (Except.ok [str "x"])) = true :=
  ⟨rfl, rfl, rfl⟩

/-- Claim C4, amended: query fails with the not-initialized error exactly
when the repository handle is unset; a successful Init sets the handle and a
failed Init leaves the indexer unchanged; Close is accepted in every state,
always succeeds, is idempotent, and leaves the state unchanged — so query
remains valid after Close when it was valid before. -/
theorem claim_C4_amended (c : Constructible) (i : Indexer) (α : Type)
    (f : α) (tr : TagsOutcome) :
    CloseStep i = (i, none)
      ∧ ((InitStep c i).2 = none → ((InitStep c i).1.repo).isSome = true)
      ∧ ((InitStep c i).2 ≠ none → (InitStep c i).1 = i)
      ∧ isOk (Get i f tr) = (i.repo).isSome
      ∧ (i.repo = none →
          Get i f tr = Except.error (str "OCI indexer not initialized")) := by
  refine ⟨rfl, ?_, ?_, ?_, ?_⟩
  · intro hnone
    cases hI : Init c i.opts with
    | error e => simp [InitStep, hI] at hnone
    | ok repo => simp [InitStep, hI]
  · intro hne
    cases hI : Init c i.opts with
    | error e => simp [InitStep, hI]
    | ok repo => simp [InitStep, hI] at hne
  · cases hr : i.repo with
    | none => simp [Get, hr, isOk]
    | some hh =>
      cases tr with
      | error e => simp [Get, hr, isOk]
      | ok tags =>
        simp only [Get, hr, Option.isSome_some]
        by_cases hemp : (processTags i.opts tags).isEmpty
        · simp [hemp, isOk]
        · simp [hemp, isOk]
  · intro hnone
    simp [Get, hnone]

/-- Claim C4, witness: instances of the amended claim at concrete states. -/
theorem claim_C4_amended_witness :
    CloseStep iReadyB = (iReadyB, none)
      ∧ Get { opts := optsB, repo := (none : Option RepoHandle) } ()
            (Except.ok [str "x"])
          = Except.error (str "OCI indexer not initialized") :=
  ⟨(claim_C4_amended alwaysConstructible iReadyB Unit ()
      (Except.ok [str "x"])).1,
   (claim_C4_amended alwaysConstructible
      { opts := optsB, repo := none } Unit ()
      (Except.ok [str "x"])).2.2.2.2 rfl⟩

/-- Claim C5: Init fails exactly when the registry or the repository is
empty, assuming the combined reference is constructible; with both
non-empty it succeeds and sets the repository handle.  Constructibility of
the reference is the spec-modelled remote.NewRepository oracle. -/
theorem claim_C5 (c : Constructible) (i : Indexer)
    (hc : c (repoRef i.opts) = true) :
    (((InitStep c i).2).isSome = true
        ↔ (i.opts.registry = [] ∨ i.opts.repository = []))
      ∧ (i.opts.registry ≠ [] → i.opts.repository ≠ [] →
          (InitStep c i).2 = none ∧ ((InitStep c i).1.repo).isSome = true) := by
  constructor
  · constructor
    · intro hsome
      by_contra hno
      push_neg at hno
      obtain ⟨h1, h2⟩ := hno
      rw [InitStep, Init_ok i.opts c h1 h2 hc] at hsome
      simp at hsome
    · intro hor
      rcases hor with h1 | h2
      · simp [InitStep, Init, h1]
      · by_cases h1 : i.opts.registry = []
        · simp [InitStep, Init, h1]
        · simp [InitStep, Init, h1, h2]
  · intro h1 h2
    rw [InitStep, Init_ok i.opts c h1 h2 hc]
    simp

/-- Claim C5, witness: a successful Init on concrete non-empty options. -/
theorem claim_C5_witness :
    (((InitStep alwaysConstructible (NewIndexer optsB)).2).isSome = true
        ↔ (optsB.registry = [] ∨ optsB.repository = []))
      ∧ (InitStep alwaysConstructible (NewIndexer optsB)).2 = none
      ∧ ((InitStep alwaysConstructible (NewIndexer optsB)).1.repo).isSome
          = true := by
  have h := claim_C5 alwaysConstructible (NewIndexer optsB) rfl
  exact ⟨h.1, (h.2 (by decide) (by decide)).1, (h.2 (by decide) (by decide)).2⟩

theorem mock_mem_props (opts : IndexerOptions) (p : Package)
    (hp : p ∈ getMockPackage opts) :
    (∃ ref, p.basePath = str "oci://" ++ opts.registry ++ str "/"
        ++ opts.repository ++ str ":" ++ ref)
      ∧ p.name ≠ [] ∧ p.version ≠ [] := by
  simp only [getMockPackage, List.mem_singleton] at hp
  subst hp
  refine ⟨⟨str "latest", ?_⟩,
    (show str "oci-mock-package" ≠ ([] : Str) by decide),
    (show str "1.0.0" ≠ ([] : Str) by decide)⟩
  show str "oci://" ++ opts.registry ++ str "/" ++ opts.repository
      ++ str ":latest" = _
  have hcl : str ":latest" = str ":" ++ str "latest" := by decide
  rw [hcl, ← List.append_assoc]

/-- Claim C6, counterexample: with the tag list holding the empty string,
Get returns a descriptor whose name is empty, and with the tag list
holding "a:" it returns one whose version is empty. -/
theorem claim_C6_counterexample :
    Get { opts := optsB, repo := some handleB } () (Except.ok [([] : Str)])
        = Except.ok [synthPackage optsB []]
      ∧ (synthPackage optsB []).name = []
      ∧ Get { opts := optsB, repo := some handleB } () (Except.ok [str "a:"])
          = Except.ok [synthPackage optsB (str "a:")]
      ∧ (synthPackage optsB (str "a:")).version = [] :=
  ⟨rfl, rfl, rfl, rfl⟩

/-- Claim C6, amended: every descriptor Get returns has a base path of the
form oci://registry/repository:reference; its name can be empty only when
the empty string is among the enumerated tags, and its version can be empty
only when some enumerated tag has an empty second colon-separated field. -/
theorem claim_C6_amended (opts : IndexerOptions) (h : RepoHandle)
    (α : Type) (f : α) (tr : TagsOutcome) (l : List Package)
    (hget : Get { opts := opts, repo := some h } f tr = Except.ok l) :
    ∀ p ∈ l,
      (∃ ref, p.basePath = str "oci://" ++ opts.registry ++ str "/"
          ++ opts.repository ++ str ":" ++ ref)
      ∧ (p.name = [] → ∃ tags, tr = Except.ok tags ∧ [] ∈ tags)
      ∧ (p.version = [] →
          ∃ tags t, tr = Except.ok tags ∧ t ∈ tags
            ∧ secondField t = some []) := by
  intro p hp
  cases tr with
  | error e =>
    have h2 : Except.ok (getMockPackage opts) = Except.ok l := hget
    have h3 : getMockPackage opts = l := by injection h2
    subst h3
    obtain ⟨hbase, hn, hv⟩ := mock_mem_props opts p hp
    exact ⟨hbase, fun hc => absurd hc hn, fun hc => absurd hc hv⟩
  | ok tags =>
    rw [Get_some] at hget
    by_cases hnil : tags = []
    · subst hnil
      have h2 : (if ([] : List Str) = [] then Except.ok (getMockPackage opts)
          else Except.ok (([] : List Str).map (synthPackage opts)))
            = Except.ok l := hget
      rw [if_pos rfl] at h2
      have h3 : getMockPackage opts = l := by injection h2
      subst h3
      obtain ⟨hbase, hn, hv⟩ := mock_mem_props opts p hp
      exact ⟨hbase, fun hc => absurd hc hn, fun hc => absurd hc hv⟩
    · have h2 : (if tags = [] then Except.ok (getMockPackage opts)
          else Except.ok (tags.map (synthPackage opts)))
            = Except.ok l := hget
      rw [if_neg hnil] at h2
      have h3 : tags.map (synthPackage opts) = l := by injection h2
      subst h3
      obtain ⟨t, ht, hpt⟩ := List.mem_map.mp hp
      subst hpt
      refine ⟨⟨t, rfl⟩, ?_, ?_⟩
      · intro hn
        have h4 := (nameFromTag_eq_nil_iff t).mp hn
        exact ⟨tags, rfl, h4 ▸ ht⟩
      · intro hv
        exact ⟨tags, t, rfl, ht, (versionFromTag_eq_nil_iff t).mp hv⟩

/-- Claim C6, witness: the amended claim applied to a concrete query. -/
theorem claim_C6_amended_witness :
    ∃ ref, (synthPackage optsB (str "x")).basePath
        = str "oci://" ++ optsB.registry ++ str "/" ++ optsB.repository
          ++ str ":" ++ ref :=
  (claim_C6_amended optsB handleB Unit () (Except.ok [str "x"])
      [synthPackage optsB (str "x")] rfl
      (synthPackage optsB (str "x")) (List.mem_singleton.mpr rfl)).1

/-- Claim C7, counterexample: with both credentials supplied and the
insecure flag set, Init attaches the auth client and never reaches the
transport assignment, so certificate verification is not disabled. -/
theorem claim_C7_counterexample :
    Init alwaysConstructible optsAuthInsecure
        = Except.ok { ref := str "r/p", client := ClientConfig.authClient }
      ∧ optsAuthInsecure.insecure = true
      ∧ clientInsecure ClientConfig.authClient = false :=
  ⟨rfl, rfl, rfl⟩

/-- Claim C7, amended: with the insecure flag set, a successful Init
disables certificate verification exactly when no auth client was attached,
that is when the username or the password is empty; with both credentials
supplied the handle keeps the auth client unmodified. -/
theorem claim_C7_amended (opts : IndexerOptions) (c : Constructible)
    (h : RepoHandle) (hins : opts.insecure = true)
    (hok : Init c opts = Except.ok h) :
    h.client = (if opts.username ≠ [] ∧ opts.password ≠ []
        then ClientConfig.authClient else ClientConfig.httpClient true)
      ∧ (clientInsecure h.client = true
          ↔ (opts.username = [] ∨ opts.password = [])) := by
  obtain ⟨h1, h2, h3, h4⟩ := Init_ok_inv opts c h hok
  subst h4
  by_cases hcred : opts.username ≠ [] ∧ opts.password ≠ []
  · constructor
    · simp [clientFor, hcred]
    · simp [clientFor, hcred, clientInsecure, hcred.1, hcred.2]
  · constructor
    · simp [clientFor, hcred, hins]
    · have hor : opts.username = [] ∨ opts.password = [] := by
        by_contra hno
        push_neg at hno
        exact hcred ⟨hno.1, hno.2⟩
      simp [clientFor, hcred, hins, clientInsecure, hor]

/-- Claim C7, witness: the amended claim applied to the concrete
credentials-plus-insecure configuration. -/
theorem claim_C7_amended_witness :
    ({ ref := str "r/p", client := ClientConfig.authClient }
        : RepoHandle).client
      = (if optsAuthInsecure.username ≠ [] ∧ optsAuthInsecure.password ≠ []
          then ClientConfig.authClient else ClientConfig.httpClient true) :=
  (claim_C7_amended optsAuthInsecure alwaysConstructible
    { ref := str "r/p", client := ClientConfig.authClient } rfl rfl).1

/-- Claim C8: when enumeration succeeds with at least one tag, Get returns
exactly one descriptor per tag, in enumeration order, the j-th descriptor
synthesized from the j-th tag; no tag is skipped. -/
theorem claim_C8 (opts : IndexerOptions) (h : RepoHandle) (α : Type)
    (f : α) (tags : List Str) (hne : tags ≠ []) :
    ∃ l, Get { opts := opts, repo := some h } f (Except.ok tags)
        = Except.ok l
      ∧ l.length = tags.length
      ∧ ∀ (j : Nat) (hj : j < tags.length) (hj2 : j < l.length),
          getPackageFromTag opts (tags.get ⟨j, hj⟩)
            = Except.ok (some (l.get ⟨j, hj2⟩)) := by
  refine ⟨tags.map (synthPackage opts), ?_, by simp, ?_⟩
  · rw [Get_some]
    simp [hne]
  · intro j hj hj2
    rw [getPackageFromTag_eq]
    simp [List.get_eq_getElem, List.getElem_map]

/-- Claim C8, witness: the claim applied to a concrete one-tag list. -/
theorem claim_C8_witness :
    ∃ l, Get { opts := optsB, repo := some handleB } ()
        (Except.ok [str "x"]) = Except.ok l
      ∧ l.length = ([str "x"] : List Str).length
      ∧ ∀ (j : Nat) (hj : j < ([str "x"] : List Str).length)
          (hj2 : j < l.length),
          getPackageFromTag optsB (([str "x"] : List Str).get ⟨j, hj⟩)
            = Except.ok (some (l.get ⟨j, hj2⟩)) :=
  claim_C8 optsB handleB Unit () [str "x"] (by decide)

/-- Claim C10: Init attaches the auth client exactly when both username and
password are non-empty; with exactly one of the two supplied, Init still
succeeds and attaches no auth client. -/
theorem claim_C10 (opts : IndexerOptions) (c : Constructible) :
    (∀ h : RepoHandle, Init c opts = Except.ok h →
        (hasAuthClient h.client = true
          ↔ (opts.username ≠ [] ∧ opts.password ≠ [])))
      ∧ (opts.registry ≠ [] → opts.repository ≠ [] →
          c (repoRef opts) = true →
          ((opts.username = [] ∧ opts.password ≠ [])
            ∨ (opts.username ≠ [] ∧ opts.password = [])) →
          ∃ h, Init c opts = Except.ok h
            ∧ hasAuthClient h.client = false) := by
  constructor
  · intro h hok
    obtain ⟨h1, h2, h3, h4⟩ := Init_ok_inv opts c h hok
    subst h4
    by_cases hcred : opts.username ≠ [] ∧ opts.password ≠ []
    · simp [clientFor, hcred, hasAuthClient, hcred.1, hcred.2]
    · by_cases hins : opts.insecure
      · simp [clientFor, hcred, hins, hasAuthClient]
      · simp [clientFor, hcred, hins, hasAuthClient]
  · intro h1 h2 h3 hone
    refine ⟨_, Init_ok opts c h1 h2 h3, ?_⟩
    have hcred : ¬ (opts.username ≠ [] ∧ opts.password ≠ []) := by
      rcases hone with ⟨hu, _⟩ | ⟨_, hp⟩
      · intro hc
        exact hc.1 hu
      · intro hc
        exact hc.2 hp
    by_cases hins : opts.insecure
    · simp [clientFor, hcred, hins, hasAuthClient]
    · simp [clientFor, hcred, hins, hasAuthClient]

/-- Claim C10, witness: Init with a username only succeeds and attaches no
auth client. -/
theorem claim_C10_witness :
    ∃ h, Init alwaysConstructible optsUserOnly = Except.ok h
      ∧ hasAuthClient h.client = false :=
  (claim_C10 optsUserOnly alwaysConstructible).2 (by decide) (by decide) rfl
    (Or.inr ⟨by decide, rfl⟩)

end Oci
